import Mathlib

/-!
Shallow embedding of the AWS billing line parser of `aws_billing_extractor.py`:
the method `AWSBillingExtractorV2._parse_lines_to_csv_data` together with its
helper closures `is_service_header`, `is_region_header` and `parse_amount`,
and the two keyword tables `SERVICE_KEYWORDS` and `REGION_KEYWORDS`.

Modelling conventions.  A text line is a list of characters.  The Python
regular-expression character classes are modelled over the ASCII repertoire
that the billing statements use.  Amounts are modelled as exact rationals:
the Python code converts the matched decimal literal with `float`, which
rounds to the nearest binary double; sign and zero are unaffected by that
rounding, so the non-negativity facts proved below transfer.
-/

namespace Billing

abbrev Line := List Char

def chars (s : String) : Line := s.toList

/-- Python whitespace class (ASCII part), used by `str.strip` and by `\s`
in the quantity regex. -/
def isSpaceChar (c : Char) : Bool :=
  c == ' ' || c == '\t' || c == '\n' || c == '\r' || c == '\x0b' || c == '\x0c'

/-- Python regex class `[\d,]`. -/
def isDigitOrComma (c : Char) : Bool := c.isDigit || c == ','

/-- Python regex class `\w` (ASCII part). -/
def isWordChar (c : Char) : Bool := c.isAlphanum || c == '_'

/-- The character class of the unit token in the quantity regex:
word characters, hyphen and slash. -/
def isUnitChar (c : Char) : Bool := isWordChar c || c == '-' || c == '/'

/-- Python `str.strip()`: drop whitespace from both ends. -/
def stripL (s : Line) : Line :=
  ((s.dropWhile isSpaceChar).reverse.dropWhile isSpaceChar).reverse

def USD : Line := ['U', 'S', 'D']

/-- Generic substring test, Python `pat in line`. -/
def hasSub (pat : Line) : Line → Bool
  | [] => pat.isEmpty
  | c :: rest => pat.isPrefixOf (c :: rest) || hasSub pat rest

def hasUSD (s : Line) : Bool := hasSub USD s

/-- Split at the last occurrence of "USD": `(before, after)` such that the
line is `before ++ "USD" ++ after` and "USD" does not occur in `after`.
This is Python `line.rsplit("USD", 1)`; the text after the last occurrence
also equals `line.split("USD")[-1]` because "USD" cannot overlap itself. -/
def splitLastUSD : Line → Option (Line × Line)
  | [] => none
  | c :: rest =>
    match splitLastUSD rest with
    | some (b, a) => some (c :: b, a)
    | none => if USD.isPrefixOf (c :: rest) then some ([], rest.drop 2) else none

/-- `AWSBillingExtractorV2.SERVICE_KEYWORDS`. -/
def SERVICE_KEYWORDS : List Line :=
  [chars "Elastic Container Service", chars "Simple Storage Service",
   chars "Elastic Compute Cloud", chars "Relational Database Service",
   chars "Glue", chars "DynamoDB", chars "Virtual Private Cloud",
   chars "Data Transfer", chars "Athena", chars "Lambda",
   chars "Elastic Load Balancing", chars "Kinesis", chars "CloudWatch",
   chars "EC2 Container Registry", chars "Key Management Service",
   chars "Elastic File System", chars "S3 Glacier Deep Archive",
   chars "Secrets Manager", chars "Route 53", chars "Cost Explorer",
   chars "Simple Email Service", chars "Simple Queue Service",
   chars "Certificate Manager", chars "Simple Notification Service",
   chars "CloudFront", chars "Savings Plans", chars "Tax", chars "Support"]

/-- `AWSBillingExtractorV2.REGION_KEYWORDS`. -/
def REGION_KEYWORDS : List Line :=
  [chars "Asia Pacific (Seoul)", chars "Asia Pacific (Tokyo)",
   chars "Asia Pacific (Singapore)", chars "Asia Pacific (Mumbai)",
   chars "Asia Pacific (Hong Kong)", chars "Asia Pacific (Osaka)",
   chars "Asia Pacific (Sydney)", chars "Asia Pacific (Jakarta)",
   chars "US East (N. Virginia)", chars "US East (Ohio)",
   chars "US West (Oregon)", chars "US West (N. California)",
   chars "EU (Ireland)", chars "EU (Frankfurt)", chars "EU (London)",
   chars "EU (Paris)", chars "EU (Stockholm)", chars "EU (Milan)",
   chars "South America (Sao Paulo)", chars "Canada (Central)",
   chars "Middle East (Bahrain)", chars "Africa (Cape Town)",
   chars "Any", chars "Global"]

/-- Loop body of the closure `is_service_header`: first keyword that is a
prefix of the line, provided the line contains "USD"; the returned total is
"USD" plus the text after the last "USD", stripped (Python
`"USD" + line.split("USD")[-1].strip()`; the `len(parts) >= 2` guard always
holds when "USD" occurs in the line). -/
def serviceHeaderAux : List Line → Line → Option (Line × Line)
  | [], _ => none
  | svc :: rest, line =>
    if svc.isPrefixOf line && hasUSD line then
      match splitLastUSD line with
      | some (_, a) => some (svc, USD ++ stripL a)
      | none => serviceHeaderAux rest line
    else serviceHeaderAux rest line

/-- The closure `is_service_header` of `_parse_lines_to_csv_data`. -/
def is_service_header (line : Line) : Option (Line × Line) :=
  serviceHeaderAux SERVICE_KEYWORDS line

/-- Loop body of the closure `is_region_header`: first region keyword that
is a prefix of the line; the total is "USD" plus the stripped text after the
last "USD" when "USD" occurs, and empty otherwise. -/
def regionHeaderAux : List Line → Line → Option (Line × Line)
  | [], _ => none
  | r :: rest, line =>
    if r.isPrefixOf line then
      match splitLastUSD line with
      | some (_, a) => some (r, USD ++ stripL a)
      | none => some (r, [])
    else regionHeaderAux rest line

/-- The closure `is_region_header` of `_parse_lines_to_csv_data`. -/
def is_region_header (line : Line) : Option (Line × Line) :=
  regionHeaderAux REGION_KEYWORDS line

/-- Numeric value of a list of decimal digits. -/
def digitsToNat (ds : Line) : Nat :=
  ds.foldl (fun n c => n * 10 + (c.toNat - '0'.toNat)) 0

/-- First match of the regex of `parse_amount` on a comma-free string:
the leftmost maximal digit run, an optional dot and a further maximal digit
run (`[\d,]+\.?\d*` after the commas were removed, so the class `[\d,]`
only ever matches digits; no backtracking is needed because the pattern has
no end anchor).  Returns the integer digits and the fractional digits. -/
def findFirstNum : Line → Option (Line × Line)
  | [] => none
  | c :: rest =>
    if c.isDigit then
      let d1 := (c :: rest).takeWhile Char.isDigit
      match (c :: rest).dropWhile Char.isDigit with
      | '.' :: r2 => some (d1, r2.takeWhile Char.isDigit)
      | _ => some (d1, [])
    else findFirstNum rest

/-- The closure `parse_amount` of `_parse_lines_to_csv_data`: strip commas,
find the first decimal literal, parse it (here: exactly, as a rational);
`0.0` when the string is empty or holds no digit. -/
def parse_amount (amount_str : Line) : ℚ :=
  if amount_str.isEmpty then 0
  else
    match findFirstNum (amount_str.filter (fun c => c != ',')) with
    | some (d1, d2) =>
      mkRat (digitsToNat d1 * 10 ^ d2.length + digitsToNat d2) (10 ^ d2.length)
    | none => 0

/-- Tail of the quantity regex, `\s*[\w\-\/]+$`: succeeds on `t` exactly
when after discarding leading whitespace a non-empty all-unit-character
remainder reaches the end of the string.  (Giving back fewer whitespace
characters can never help, because whitespace is not a unit character, so
the greedy behaviour is the only one.)  Returns the unit group. -/
def trySpacesUnit (t : Line) : Option Line :=
  let u := t.dropWhile isSpaceChar
  if u.isEmpty then none
  else if u.all isUnitChar then some u else none

/-- The `\d*` step of the quantity regex with its backtracking: `ds` is the
maximal digit run at the current position and `rest` what follows it; the
fuel counts how many digits are consumed, tried from maximal down to zero;
consumed digits are appended to the number group `g1`. -/
def tryDigitsAux (g1 ds rest : Line) : Nat → Option (Line × Line)
  | 0 =>
    match trySpacesUnit (ds ++ rest) with
    | some u => some (g1, u)
    | none => none
  | j + 1 =>
    match trySpacesUnit (ds.drop (j + 1) ++ rest) with
    | some u => some (g1 ++ ds.take (j + 1), u)
    | none => tryDigitsAux g1 ds rest j

def tryDigits (g1 t : Line) : Option (Line × Line) :=
  tryDigitsAux g1 (t.takeWhile Char.isDigit) (t.dropWhile Char.isDigit)
    (t.takeWhile Char.isDigit).length

/-- The `\.?` step of the quantity regex: prefer consuming a dot, fall back
to not consuming it when the rest of the pattern fails. -/
def tryDot (g1 t : Line) : Option (Line × Line) :=
  match t with
  | '.' :: t2 =>
    match tryDigits (g1 ++ ['.']) t2 with
    | some res => some res
    | none => tryDigits g1 t
  | _ => tryDigits g1 t

/-- The `[\d,]+` step of the quantity regex with its backtracking: `m` is
the maximal run of digits and commas at the current position and `rest`
what follows it; the fuel counts how many of its characters are consumed,
tried from maximal down to one. -/
def matchNumUnitAux (m rest : Line) : Nat → Option (Line × Line)
  | 0 => none
  | a + 1 =>
    match tryDot (m.take (a + 1)) (m.drop (a + 1) ++ rest) with
    | some res => some res
    | none => matchNumUnitAux m rest a

/-- Match of the quantity regex `([\d,]+\.?\d*)\s*([\w\-\/]+)$` anchored at
the start of `t`, with the backtracking order of the Python engine
(inner quantifiers give back first).  Returns the two groups. -/
def matchNumUnitAt (t : Line) : Option (Line × Line) :=
  matchNumUnitAux (t.takeWhile isDigitOrComma) (t.dropWhile isDigitOrComma)
    (t.takeWhile isDigitOrComma).length

/-- `re.search` of the quantity regex: leftmost starting position wins.
Returns the text before the match start and the two groups. -/
def searchNumUnit : Line → Option (Line × Line × Line)
  | [] => none
  | c :: rest =>
    match matchNumUnitAt (c :: rest) with
    | some (g1, g2) => some ([], g1, g2)
    | none =>
      match searchNumUnit rest with
      | some (p, g1, g2) => some (c :: p, g1, g2)
      | none => none

/-- One row of the CSV output of `_parse_lines_to_csv_data`. -/
structure UsageRecord where
  Service : Line
  Region : Line
  Description : Line
  Usage_Quantity : Line
  Usage_Unit : Line
  Amount : ℚ
  Amount_Unit : Line
deriving DecidableEq

/-- The mutable state of the parsing loop: the accumulated rows and the
`current_service`, `current_service_total`, `current_region` and
`current_sub_service` variables. -/
structure PState where
  csv : List UsageRecord
  service : Option Line
  serviceTotal : Line
  region : Option Line
  subService : Option Line
deriving DecidableEq

def initState : PState := ⟨[], none, [], none, none⟩

def chargesMarker : Line := chars "Charges by service"

/-- One iteration of the `while` loop of `_parse_lines_to_csv_data` on the
current line (every branch of the loop body advances the index by one). -/
def step (st : PState) (line : Line) : PState :=
  if line.isEmpty then st
  else if hasSub chargesMarker line then st
  else
    match is_service_header line with
    | some (svc, total) =>
      { st with service := some svc, serviceTotal := total,
                region := none, subService := none }
    | none =>
      match st.service with
      | none => st
      | some svc =>
        match is_region_header line with
        | some (rg, _) => { st with region := some rg, subService := none }
        | none =>
          if (chars "Amazon ").isPrefixOf line || (chars "AWS ").isPrefixOf line ||
             (chars "EBS ").isPrefixOf line || (chars "Bandwidth ").isPrefixOf line ||
             hasSub (chars "Elastic Load Balancing -") line then
            match splitLastUSD line with
            | some (b, _) => { st with subService := some (stripL b) }
            | none => st
          else
            match splitLastUSD line with
            | none => st
            | some (b, a) =>
              match searchNumUnit (stripL b) with
              | some (p, qty, unit) =>
                if !(stripL p).isEmpty && !(USD ++ stripL a).isEmpty then
                  { st with csv := st.csv ++
                      [⟨svc, st.region.getD [], stripL p, qty, unit,
                        parse_amount (USD ++ stripL a), USD⟩] }
                else st
              | none =>
                if !(stripL b).isEmpty && !(USD ++ stripL a).isEmpty then
                  { st with csv := st.csv ++
                      [⟨svc, st.region.getD [], stripL b, [], [],
                        parse_amount (USD ++ stripL a), USD⟩] }
                else st

/-- `_parse_lines_to_csv_data`: fold the loop body over the lines and
return the accumulated rows. -/
def parseCSV (lines : List Line) : List UsageRecord :=
  (lines.foldl step initState).csv

/-- The `while i < len(lines)` loop itself, with its explicit index `i`
that strictly increases on every iteration. -/
def parseFrom (lines : List Line) (i : Nat) (st : PState) : PState :=
  if h : i < lines.length then parseFrom lines (i + 1) (step st lines[i]) else st
termination_by lines.length - i

/-- A line survives normalization when it is non-empty and does not carry
the boilerplate marker; such lines are the ones the loop does not skip
outright. -/
def survives (line : Line) : Bool :=
  !line.isEmpty && !hasSub chargesMarker line

/-- The suffix of the line starting at the first occurrence of "USD"
(empty when "USD" does not occur). -/
def fromFirstUSD : Line → Line
  | [] => []
  | c :: rest => if USD.isPrefixOf (c :: rest) then c :: rest else fromFirstUSD rest

/-- The total-amount string as the specification words it for the service
header classifier: everything from "USD" to end of line, trimmed.  Stated
from the specification only, for comparison with the value the code
computes. -/
def spec_total_from_USD (line : Line) : Line := stripL (fromFirstUSD line)

/-- The service and region context variables only ever hold keywords from
the two vocabularies. -/
def StateOK (st : PState) : Prop :=
  (∀ s, st.service = some s → s ∈ SERVICE_KEYWORDS) ∧
  (∀ rg, st.region = some rg → rg ∈ REGION_KEYWORDS)

/-- The invariant every emitted row satisfies. -/
def QRec (r : UsageRecord) : Prop :=
  r.Service ∈ SERVICE_KEYWORDS ∧
  (r.Region = [] ∨ r.Region ∈ REGION_KEYWORDS) ∧
  r.Amount_Unit = USD ∧ 0 ≤ r.Amount ∧
  ((r.Usage_Quantity = [] ∧ r.Usage_Unit = []) ∨
   (r.Usage_Quantity ≠ [] ∧ r.Usage_Unit ≠ []))

/-! Basic facts about the splitting and matching helpers. -/

theorem splitLastUSD_isSome (s : Line) : (splitLastUSD s).isSome = hasUSD s := by
  induction s with
  | nil => rfl
  | cons c rest ih =>
    unfold splitLastUSD hasUSD hasSub
    unfold hasUSD at ih
    cases h : splitLastUSD rest with
    | none =>
      rw [h] at ih
      simp only [Option.isSome_none] at ih
      by_cases hp : USD.isPrefixOf (c :: rest)
      · simp [hp]
      · simp [hp, ← ih]
    | some p =>
      rw [h] at ih
      simp only [Option.isSome_some] at ih
      simp [← ih]

theorem splitLastUSD_eq_none {s : Line} (h : hasUSD s = false) : splitLastUSD s = none := by
  have := splitLastUSD_isSome s
  rw [h] at this
  cases hs : splitLastUSD s with
  | none => rfl
  | some p => rw [hs] at this; simp at this

theorem splitLastUSD_of_hasUSD {s : Line} (h : hasUSD s = true) :
    ∃ b a, splitLastUSD s = some (b, a) := by
  have := splitLastUSD_isSome s
  rw [h] at this
  rw [Option.isSome_iff_exists] at this
  obtain ⟨⟨b, a⟩, hs⟩ := this
  exact ⟨b, a, hs⟩

theorem parse_amount_nonneg (a : Line) : 0 ≤ parse_amount a := by
  unfold parse_amount
  split
  · exact le_refl 0
  · split
    · rename_i d1 d2 _
      rw [Rat.mkRat_eq_div]
      positivity
    · exact le_refl 0

theorem trySpacesUnit_ne {t u : Line} (h : trySpacesUnit t = some u) : u ≠ [] := by
  simp only [trySpacesUnit] at h
  split at h
  · exact absurd h (by simp)
  · split at h
    · rename_i h1 _
      cases h
      intro hc
      rw [hc] at h1
      simp at h1
    · exact absurd h (by simp)

theorem tryDigitsAux_ne {g1 ds rest : Line} :
    ∀ {n : Nat} {a u : Line}, tryDigitsAux g1 ds rest n = some (a, u) →
      (g1 ≠ [] → a ≠ []) ∧ u ≠ [] := by
  intro n
  induction n with
  | zero =>
    intro a u h
    simp only [tryDigitsAux] at h
    split at h
    · rename_i u2 h2
      cases h
      exact ⟨fun hg => hg, trySpacesUnit_ne h2⟩
    · exact absurd h (by simp)
  | succ j ih =>
    intro a u h
    simp only [tryDigitsAux] at h
    split at h
    · rename_i u2 h2
      cases h
      refine ⟨fun hg => ?_, trySpacesUnit_ne h2⟩
      simp [hg]
    · exact ih h

theorem tryDot_ne {g1 t a u : Line} (h : tryDot g1 t = some (a, u)) :
    (g1 ≠ [] → a ≠ []) ∧ u ≠ [] := by
  unfold tryDot at h
  split at h
  · split at h
    · rename_i h2
      cases h
      have := tryDigitsAux_ne h2
      exact ⟨fun _ => this.1 (by simp), this.2⟩
    · exact tryDigitsAux_ne h
  · exact tryDigitsAux_ne h

theorem matchNumUnitAux_ne {m rest : Line} :
    ∀ {n : Nat} {a u : Line}, n ≤ m.length → matchNumUnitAux m rest n = some (a, u) →
      a ≠ [] ∧ u ≠ [] := by
  intro n
  induction n with
  | zero => intro a u _ h; exact absurd h (by simp [matchNumUnitAux])
  | succ j ih =>
    intro a u hn h
    simp only [matchNumUnitAux] at h
    split at h
    · rename_i h2
      cases h
      have hm : m.take (j + 1) ≠ [] := by
        rw [Ne, List.take_eq_nil_iff]
        push_neg
        constructor
        · omega
        · intro hm0
          rw [hm0] at hn
          simp at hn
      have := tryDot_ne h2
      exact ⟨this.1 hm, this.2⟩
    · exact ih (by omega) h

theorem matchNumUnitAt_ne {t a u : Line} (h : matchNumUnitAt t = some (a, u)) :
    a ≠ [] ∧ u ≠ [] :=
  matchNumUnitAux_ne (le_refl _) h

theorem searchNumUnit_ne {t : Line} :
    ∀ {p a u : Line}, searchNumUnit t = some (p, a, u) → a ≠ [] ∧ u ≠ [] := by
  induction t with
  | nil => intro p a u h; exact absurd h (by simp [searchNumUnit])
  | cons c rest ih =>
    intro p a u h
    simp only [searchNumUnit] at h
    split at h
    · rename_i h2
      cases h
      exact matchNumUnitAt_ne h2
    · split at h
      · rename_i h2
        cases h
        exact ih h2
      · exact absurd h (by simp)

/-! Characterization of the two header classifiers. -/

theorem serviceHeaderAux_some :
    ∀ {keys : List Line} {line svc total : Line},
      serviceHeaderAux keys line = some (svc, total) →
      svc ∈ keys ∧ svc.isPrefixOf line = true ∧ hasUSD line = true ∧
        ∃ b a, splitLastUSD line = some (b, a) ∧ total = USD ++ stripL a := by
  intro keys
  induction keys with
  | nil => intro line svc total h; exact absurd h (by simp [serviceHeaderAux])
  | cons k rest ih =>
    intro line svc total h
    unfold serviceHeaderAux at h
    split at h
    · rename_i hc
      rw [Bool.and_eq_true] at hc
      split at h
      · rename_i b a hs
        cases h
        exact ⟨List.mem_cons_self _ _, hc.1, hc.2, b, a, hs, rfl⟩
      · have := ih h
        exact ⟨List.mem_cons_of_mem _ this.1, this.2⟩
    · have := ih h
      exact ⟨List.mem_cons_of_mem _ this.1, this.2⟩

theorem serviceHeaderAux_none :
    ∀ {keys : List Line} {line : Line},
      serviceHeaderAux keys line = none →
      ∀ svc ∈ keys, ¬(svc.isPrefixOf line = true ∧ hasUSD line = true) := by
  intro keys
  induction keys with
  | nil => intro line _ svc hm; simp at hm
  | cons k rest ih =>
    intro line h svc hm
    unfold serviceHeaderAux at h
    split at h
    · rename_i hc
      rw [Bool.and_eq_true] at hc
      obtain ⟨b, a, hs⟩ := splitLastUSD_of_hasUSD hc.2
      rw [hs] at h
      exact absurd h (by simp)
    · rename_i hc
      rcases List.mem_cons.mp hm with rfl | hm2
      · intro hx
        exact hc (by rw [Bool.and_eq_true]; exact hx)
      · exact ih h svc hm2

theorem regionHeaderAux_some :
    ∀ {keys : List Line} {line rg total : Line},
      regionHeaderAux keys line = some (rg, total) →
      rg ∈ keys ∧ rg.isPrefixOf line = true := by
  intro keys
  induction keys with
  | nil => intro line rg total h; exact absurd h (by simp [regionHeaderAux])
  | cons k rest ih =>
    intro line rg total h
    unfold regionHeaderAux at h
    split at h
    · rename_i hc
      split at h
      · cases h; exact ⟨List.mem_cons_self _ _, hc⟩
      · cases h; exact ⟨List.mem_cons_self _ _, hc⟩
    · have := ih h
      exact ⟨List.mem_cons_of_mem _ this.1, this.2⟩

theorem is_region_header_isSome {line : Line}
    (h : (is_region_header line).isSome = true) :
    ∃ rg ∈ REGION_KEYWORDS, rg.isPrefixOf line = true := by
  rw [Option.isSome_iff_exists] at h
  obtain ⟨⟨rg, total⟩, hr⟩ := h
  have := regionHeaderAux_some hr
  exact ⟨rg, this.1, this.2⟩

/-- No service keyword is a prefix of a region keyword or vice versa, so no
line can match both classifiers. -/
theorem service_region_prefix_incomparable :
    ∀ r ∈ REGION_KEYWORDS, ∀ s ∈ SERVICE_KEYWORDS, ¬ r <+: s ∧ ¬ s <+: r := by
  decide

/-- None of the service keywords contains the character of the currency
marker, so "USD" can only occur strictly after the matched prefix. -/
theorem service_no_U : ∀ s ∈ SERVICE_KEYWORDS, ∀ c ∈ s, ¬ c = 'U' := by
  decide

theorem hasUSD_append (pre rest : Line) (h : ∀ c ∈ pre, ¬ c = 'U') :
    hasUSD (pre ++ rest) = hasUSD rest := by
  induction pre with
  | nil => rfl
  | cons c p ih =>
    have hc : ¬ c = 'U' := h c (List.mem_cons_self _ _)
    have hpre : USD.isPrefixOf (c :: (p ++ rest)) = false := by
      simp only [USD, List.isPrefixOf, Bool.and_eq_false_iff]
      left
      rw [beq_eq_false_iff_ne]
      exact fun hx => hc hx.symm
    rw [List.cons_append]
    show (USD.isPrefixOf (c :: (p ++ rest)) || hasSub USD (p ++ rest)) = hasUSD rest
    rw [hpre, Bool.false_or]
    exact ih fun c2 hc2 => h c2 (List.mem_cons_of_mem _ hc2)

/-- A line matching the region classifier never matches the service
classifier. -/
theorem region_not_service {line : Line}
    (h : (is_region_header line).isSome = true) :
    is_service_header line = none := by
  obtain ⟨rg, hrgm, hrgp⟩ := is_region_header_isSome h
  cases hs : is_service_header line with
  | none => rfl
  | some p =>
    obtain ⟨svc, total⟩ := p
    have hsvc := serviceHeaderAux_some hs
    have hp1 : svc <+: line := List.isPrefixOf_iff_prefix.mp hsvc.2.1
    have hp2 : rg <+: line := List.isPrefixOf_iff_prefix.mp hrgp
    have hfree := service_region_prefix_incomparable rg hrgm svc hsvc.1
    rcases List.prefix_or_prefix_of_prefix hp2 hp1 with hpp | hpp
    · exact absurd hpp hfree.1
    · exact absurd hpp hfree.2

/-! Invariants of the accumulation loop. -/

/-- What one loop iteration can add to the accumulated rows. -/
theorem step_csv_mem (st : PState) (line : Line) (r : UsageRecord)
    (hr : r ∈ (step st line).csv) :
    r ∈ st.csv ∨
      (st.service = some r.Service ∧ r.Region = st.region.getD [] ∧
       r.Amount_Unit = USD ∧ 0 ≤ r.Amount ∧
       ((r.Usage_Quantity = [] ∧ r.Usage_Unit = []) ∨
        (r.Usage_Quantity ≠ [] ∧ r.Usage_Unit ≠ []))) := by
  unfold step at hr
  split at hr
  · exact Or.inl hr
  split at hr
  · exact Or.inl hr
  split at hr
  · exact Or.inl hr
  split at hr
  · exact Or.inl hr
  rename_i svc hsvc
  split at hr
  · exact Or.inl hr
  split at hr
  · split at hr <;> exact Or.inl hr
  split at hr
  · exact Or.inl hr
  rename_i b a hsplit
  split at hr
  · rename_i p qty unit hsearch
    split at hr
    · simp only [List.mem_append, List.mem_singleton] at hr
      rcases hr with hr | hr
      · exact Or.inl hr
      · subst hr
        refine Or.inr ⟨hsvc, rfl, rfl, parse_amount_nonneg _, Or.inr ?_⟩
        exact searchNumUnit_ne hsearch
    · exact Or.inl hr
  · split at hr
    · simp only [List.mem_append, List.mem_singleton] at hr
      rcases hr with hr | hr
      · exact Or.inl hr
      · subst hr
        exact Or.inr ⟨hsvc, rfl, rfl, parse_amount_nonneg _, Or.inl ⟨rfl, rfl⟩⟩
    · exact Or.inl hr

theorem step_stateOK (st : PState) (line : Line) (h : StateOK st) :
    StateOK (step st line) := by
  obtain ⟨h1, h2⟩ := h
  unfold step
  split
  · exact ⟨h1, h2⟩
  split
  · exact ⟨h1, h2⟩
  split
  · rename_i svc total hsh
    refine ⟨fun s hs => ?_, fun rg hrg => ?_⟩
    · cases hs
      exact (serviceHeaderAux_some hsh).1
    · exact absurd hrg (by simp)
  split
  · exact ⟨h1, h2⟩
  rename_i svc hsvc
  split
  · rename_i rg total hrh
    refine ⟨h1, fun rg2 hrg2 => ?_⟩
    cases hrg2
    exact (regionHeaderAux_some hrh).1
  split
  · split
    · exact ⟨h1, h2⟩
    · exact ⟨h1, h2⟩
  split
  · exact ⟨h1, h2⟩
  split
  · split
    · exact ⟨h1, h2⟩
    · exact ⟨h1, h2⟩
  · split
    · exact ⟨h1, h2⟩
    · exact ⟨h1, h2⟩

theorem foldl_inv :
    ∀ (lines : List Line) (st : PState), StateOK st →
      StateOK (List.foldl step st lines) ∧
      ∀ r ∈ (List.foldl step st lines).csv, r ∈ st.csv ∨ QRec r := by
  intro lines
  induction lines with
  | nil => intro st h; exact ⟨h, fun r hr => Or.inl hr⟩
  | cons l rest ih =>
    intro st h
    obtain ⟨hst, hmem⟩ := ih (step st l) (step_stateOK st l h)
    refine ⟨hst, fun r hr => ?_⟩
    rcases hmem r hr with h1 | h1
    · rcases step_csv_mem st l r h1 with h2 | h2
      · exact Or.inl h2
      · obtain ⟨hs, hreg, hau, ha, hq⟩ := h2
        refine Or.inr ⟨h.1 _ hs, ?_, hau, ha, hq⟩
        cases hro : st.region with
        | none => rw [hro] at hreg; exact Or.inl hreg
        | some rg =>
          rw [hro] at hreg
          exact Or.inr (hreg ▸ h.2 rg hro)
    · exact Or.inr h1

theorem initState_ok : StateOK initState :=
  ⟨fun s hs => by simp [initState] at hs, fun rg hrg => by simp [initState] at hrg⟩

theorem parseCSV_mem {lines : List Line} {r : UsageRecord}
    (hr : r ∈ parseCSV lines) : QRec r := by
  rcases (foldl_inv lines initState initState_ok).2 r hr with h | h
  · simp [initState] at h
  · exact h

/-- A line without the currency marker never adds a row. -/
theorem step_noUSD_csv (st : PState) (line : Line) (h : hasUSD line = false) :
    (step st line).csv = st.csv := by
  have hsvc : is_service_header line = none := by
    cases hs : is_service_header line with
    | none => rfl
    | some p =>
      obtain ⟨svc, total⟩ := p
      have := (serviceHeaderAux_some hs).2.2.1
      rw [h] at this
      exact absurd this (by simp)
  have hsplit : splitLastUSD line = none := splitLastUSD_eq_none h
  unfold step
  split
  · rfl
  split
  · rfl
  rw [hsvc]
  cases hss : st.service with
  | none => rfl
  | some svc =>
    cases hrr : is_region_header line with
    | some p =>
      obtain ⟨rg, total⟩ := p
      rfl
    | none =>
      simp only [hsplit]
      repeat' split
      all_goals rfl

theorem foldl_noUSD :
    ∀ (lines : List Line) (st : PState), (∀ l ∈ lines, hasUSD l = false) →
      (List.foldl step st lines).csv = st.csv := by
  intro lines
  induction lines with
  | nil => intro st _; rfl
  | cons l rest ih =>
    intro st h
    rw [List.foldl_cons, ih (step st l) fun x hx => h x (List.mem_cons_of_mem _ hx),
      step_noUSD_csv st l (h l (List.mem_cons_self _ _))]

/-- A line the normalizer drops is skipped without any state change. -/
theorem step_nonsurviving (st : PState) (line : Line) (h : survives line = false) :
    step st line = st := by
  unfold survives at h
  rw [Bool.and_eq_false_iff] at h
  unfold step
  rcases h with h | h
  · simp only [Bool.not_eq_false'] at h
    rw [if_pos h]
  · simp only [Bool.not_eq_false'] at h
    by_cases h0 : line.isEmpty = true
    · rw [if_pos h0]
    · rw [if_neg h0, if_pos h]

/-- The indexed loop computes the left fold of the loop body over the
remaining lines. -/
theorem parseFrom_eq_drop (lines : List Line) :
    ∀ (n i : Nat) (st : PState), lines.length - i ≤ n →
      parseFrom lines i st = List.foldl step st (lines.drop i) := by
  intro n
  induction n with
  | zero =>
    intro i st h
    have hi : ¬ i < lines.length := by omega
    rw [parseFrom, dif_neg hi, List.drop_eq_nil_of_le (by omega), List.foldl_nil]
  | succ n ih =>
    intro i st h
    by_cases hi : i < lines.length
    · rw [parseFrom, dif_pos hi, ih (i + 1) (step st lines[i]) (by omega),
        List.drop_eq_getElem_cons hi, List.foldl_cons]
    · rw [parseFrom, dif_neg hi, List.drop_eq_nil_of_le (by omega), List.foldl_nil]

/-! The claims. -/

/-- C1: Running the core parse on exactly the four input lines
"Lambda USD 12.00", "Asia Pacific (Seoul) USD 12.00",
"Amazon Lambda Requests USD 12.00",
"$0.0000002 per request 60,000,000 Requests USD 12.00" emits exactly one
flat record, with Service "Lambda", Region "Asia Pacific (Seoul)",
Description "$0.0000002 per request", Usage_Quantity "60,000,000",
Usage_Unit "Requests", Amount 12.00 and Amount_Unit "USD". -/
theorem c1_four_line_example :
    parseCSV [chars "Lambda USD 12.00", chars "Asia Pacific (Seoul) USD 12.00",
        chars "Amazon Lambda Requests USD 12.00",
        chars "$0.0000002 per request 60,000,000 Requests USD 12.00"] =
      [⟨chars "Lambda", chars "Asia Pacific (Seoul)",
        chars "$0.0000002 per request", chars "60,000,000", chars "Requests",
        12, chars "USD"⟩] := by
  decide

/-- C4: An input line sequence in which "USD" occurs on no line parses to
the empty record list. -/
theorem c4_no_usd_no_records (lines : List Line)
    (h : ∀ l ∈ lines, hasUSD l = false) : parseCSV lines = [] := by
  unfold parseCSV
  rw [foldl_noUSD lines initState h]
  rfl

/-- C4 witness: a concrete USD-free input parses to no records. -/
theorem c4_no_usd_no_records_witness :
    parseCSV [chars "hello world", chars "Total charges"] = [] :=
  c4_no_usd_no_records _ (by decide)

/-- C6: A line matching a Region Header pattern processed while no service
is active is ignored: the whole loop state is unchanged, so the line
contributes no record and establishes no region context. -/
theorem c6_region_without_service (st : PState) (line : Line)
    (hsvc : st.service = none) (h : (is_region_header line).isSome = true) :
    step st line = st := by
  have hsh : is_service_header line = none := region_not_service h
  unfold step
  split
  · rfl
  split
  · rfl
  rw [hsh, hsvc]

/-- C6 witness: the initial state ignores a concrete region header line. -/
theorem c6_region_without_service_witness :
    step initState (chars "Global USD 3.00") = initState :=
  c6_region_without_service initState (chars "Global USD 3.00") rfl (by decide)

/-- C8: The core parse is a single forward pass: the while loop with its
strictly increasing line index computes exactly the left fold of the total
step function over the line list, hence terminates on every finite input
and always returns a record list. -/
theorem c8_single_forward_pass (lines : List Line) :
    parseFrom lines 0 initState = List.foldl step initState lines ∧
      (parseFrom lines 0 initState).csv = parseCSV lines := by
  have h := parseFrom_eq_drop lines lines.length 0 initState (by omega)
  rw [List.drop_zero] at h
  exact ⟨h, by rw [h]; rfl⟩

/-- C2 counterexample: a usage line processed while a service is current
but before any region header produces a flat record whose Region field is
empty, contradicting the claim that no record is produced and that every
emitted record has a non-empty Region. -/
theorem c2_counterexample_record_without_region :
    parseCSV [chars "Lambda USD 12.00", chars "$0.01 per x 5 GB USD 1.00"] =
        [⟨chars "Lambda", [], chars "$0.01 per x", chars "5", chars "GB",
          1, chars "USD"⟩] ∧
      (⟨chars "Lambda", [], chars "$0.01 per x", chars "5", chars "GB",
        1, chars "USD"⟩ : UsageRecord).Region = [] := by
  decide

/-- C2 (amended): the usage-line handler needs only a current service, not
a current region; a record added by a step taken in a state with no active
region carries the empty string in its Region field. -/
theorem c2_no_region_empty_region_field (st : PState) (line : Line)
    (r : UsageRecord) (hreg : st.region = none) (hr : r ∈ (step st line).csv) :
    r ∈ st.csv ∨ r.Region = [] := by
  rcases step_csv_mem st line r hr with h | h
  · exact Or.inl h
  · right
    rw [h.2.1, hreg]
    rfl

/-- C2 witness: the amended statement applied to a concrete state with a
current service and no region, on a concrete usage line. -/
theorem c2_no_region_empty_region_field_witness :
    (⟨chars "Lambda", [], chars "$0.01 per x", chars "5", chars "GB",
        1, chars "USD"⟩ : UsageRecord) ∈
        (⟨[], some (chars "Lambda"), chars "USD12.00", none, none⟩ : PState).csv ∨
      (⟨chars "Lambda", [], chars "$0.01 per x", chars "5", chars "GB",
        1, chars "USD"⟩ : UsageRecord).Region = [] :=
  c2_no_region_empty_region_field
    ⟨[], some (chars "Lambda"), chars "USD12.00", none, none⟩
    (chars "$0.01 per x 5 GB USD 1.00") _ rfl (by decide)

/-- C3 counterexample: the line "x USD 1.234" is accepted and its amount
1.234 is parsed as-is; its reduced denominator 500 does not divide 100, so
the amount is not a decimal with at most two fractional digits. -/
theorem c3_counterexample_three_fraction_digits :
    parseCSV [chars "Lambda USD 1.00", chars "x USD 1.234"] =
        [⟨chars "Lambda", [], chars "x", [], [], mkRat 1234 1000, chars "USD"⟩] ∧
      ¬ (mkRat 1234 1000).den ∣ 100 := by
  decide

/-- C3 (amended): every emitted record has a non-negative Amount, parsed
after commas are stripped, and its Amount_Unit is the literal "USD"; the
claimed bound of at most two fractional digits does not hold in general. -/
theorem c3_amount_nonneg_and_usd (lines : List Line) (r : UsageRecord)
    (hr : r ∈ parseCSV lines) : 0 ≤ r.Amount ∧ r.Amount_Unit = chars "USD" := by
  have h := parseCSV_mem hr
  exact ⟨h.2.2.2.1, by rw [h.2.2.1]; rfl⟩

/-- C3 witness: the amended statement applied to the record emitted from a
concrete input. -/
theorem c3_amount_nonneg_and_usd_witness :
    0 ≤ (⟨chars "Lambda", [], chars "x", [], [], mkRat 1234 1000,
        chars "USD"⟩ : UsageRecord).Amount ∧
      (⟨chars "Lambda", [], chars "x", [], [], mkRat 1234 1000,
        chars "USD"⟩ : UsageRecord).Amount_Unit = chars "USD" :=
  c3_amount_nonneg_and_usd [chars "Lambda USD 1.00", chars "x USD 1.234"] _
    (by decide)

/-- C5 counterexample: on "Lambda USD 12.00" the classifier returns the
total "USD12.00", while everything from "USD" to end of line, trimmed, is
"USD 12.00"; the two differ, so the total is not the claimed substring. -/
theorem c5_counterexample_total_shape :
    is_service_header (chars "Lambda USD 12.00") =
        some (chars "Lambda", chars "USD12.00") ∧
      spec_total_from_USD (chars "Lambda USD 12.00") = chars "USD 12.00" ∧
      chars "USD12.00" ≠ chars "USD 12.00" := by
  decide

/-- C5 (amended): the Service Header classifier succeeds exactly when the
line starts with one of the Known Service Names and contains "USD" after
that prefix, and in that case returns that service name together with
"USD" concatenated with the text after the last occurrence of "USD",
trimmed; otherwise it returns no match. -/
theorem c5_service_header_characterization (line : Line) :
    (∀ svc total, is_service_header line = some (svc, total) →
        svc ∈ SERVICE_KEYWORDS ∧
        (∃ rest, line = svc ++ rest ∧ hasUSD rest = true) ∧
        ∃ b a, splitLastUSD line = some (b, a) ∧ total = USD ++ stripL a) ∧
    (is_service_header line = none →
        ∀ svc ∈ SERVICE_KEYWORDS,
          ¬ ∃ rest, line = svc ++ rest ∧ hasUSD rest = true) := by
  constructor
  · intro svc total h
    obtain ⟨hm, hp, hu, b, a, hs, ht⟩ := serviceHeaderAux_some h
    refine ⟨hm, ?_, b, a, hs, ht⟩
    obtain ⟨rest, hrest⟩ := List.isPrefixOf_iff_prefix.mp hp
    refine ⟨rest, hrest.symm, ?_⟩
    rw [← hrest, hasUSD_append svc rest (service_no_U svc hm)] at hu
    exact hu
  · intro h svc hm hex
    obtain ⟨rest, hline, hu⟩ := hex
    apply serviceHeaderAux_none h svc hm
    constructor
    · rw [hline]
      exact List.isPrefixOf_iff_prefix.mpr ⟨rest, rfl⟩
    · rw [hline, hasUSD_append svc rest (service_no_U svc hm)]
      exact hu

/-- C5 witness: the characterization applied to a concrete matching
line. -/
theorem c5_service_header_characterization_witness :
    chars "Lambda" ∈ SERVICE_KEYWORDS ∧
      (∃ rest, chars "Lambda USD 7.50" = chars "Lambda" ++ rest ∧
        hasUSD rest = true) ∧
      ∃ b a, splitLastUSD (chars "Lambda USD 7.50") = some (b, a) ∧
        chars "USD7.50" = USD ++ stripL a :=
  (c5_service_header_characterization (chars "Lambda USD 7.50")).1
    (chars "Lambda") (chars "USD7.50") (by decide)

/-- Lines dropped by the normalizer leave the whole loop state unchanged. -/
theorem foldl_nonsurviving :
    ∀ (lines : List Line) (st : PState), (∀ l ∈ lines, survives l = false) →
      List.foldl step st lines = st := by
  intro lines
  induction lines with
  | nil => intro st _; rfl
  | cons l rest ih =>
    intro st h
    rw [List.foldl_cons, step_nonsurviving st l (h l (List.mem_cons_self _ _))]
    exact ih st fun x hx => h x (List.mem_cons_of_mem _ hx)

/-- C7 counterexample: an input that survives normalization yet parses to
zero records yields exactly the same core output as the empty input, so a
caller observing only the core's output cannot tell the no-header condition
from the empty-input condition. -/
theorem c7_counterexample_output_indistinguishable :
    [chars "hello"].filter survives ≠ [] ∧
      parseCSV [chars "hello"] = parseCSV [] := by
  decide

/-- C7 (amended): an input in which no line survives normalization parses
to the empty record list, the same output every zero-record input produces;
the core output does not distinguish the two conditions. -/
theorem c7_empty_input_same_output (lines lines2 : List Line)
    (h : lines.filter survives = []) (h2 : parseCSV lines2 = []) :
    parseCSV lines = parseCSV lines2 := by
  rw [h2]
  unfold parseCSV
  rw [foldl_nonsurviving lines initState fun l hl => by
    simpa using List.filter_eq_nil_iff.mp h l hl]
  rfl

/-- C7 witness: a concrete normalizer-empty input and a concrete headerless
input produce the same output. -/
theorem c7_empty_input_same_output_witness :
    parseCSV [chars "", chars "intro Charges by service block"] =
      parseCSV [chars "hello"] :=
  c7_empty_input_same_output _ [chars "hello"] (by decide) (by decide)

/-- C9: in every emitted record the fields Usage_Quantity and Usage_Unit
are either both empty or both non-empty. -/
theorem c9_qty_unit_both_or_neither (lines : List Line) (r : UsageRecord)
    (hr : r ∈ parseCSV lines) :
    (r.Usage_Quantity = [] ∧ r.Usage_Unit = []) ∨
      (r.Usage_Quantity ≠ [] ∧ r.Usage_Unit ≠ []) :=
  (parseCSV_mem hr).2.2.2.2

/-- C9 witness: applied to the record emitted from a concrete input whose
usage line has no trailing quantity token. -/
theorem c9_qty_unit_both_or_neither_witness :
    ((⟨chars "Lambda", [], chars "y", [], [], 3, chars "USD"⟩ :
        UsageRecord).Usage_Quantity = [] ∧
      (⟨chars "Lambda", [], chars "y", [], [], 3, chars "USD"⟩ :
        UsageRecord).Usage_Unit = []) ∨
      ((⟨chars "Lambda", [], chars "y", [], [], 3, chars "USD"⟩ :
        UsageRecord).Usage_Quantity ≠ [] ∧
      (⟨chars "Lambda", [], chars "y", [], [], 3, chars "USD"⟩ :
        UsageRecord).Usage_Unit ≠ []) :=
  c9_qty_unit_both_or_neither [chars "Lambda USD 2.00", chars "y USD 3.00"] _
    (by decide)

/-- C10: every emitted record's Service field is drawn from the fixed
service vocabulary and its Region field is empty or drawn from the fixed
region vocabulary. -/
theorem c10_fields_from_vocabulary (lines : List Line) (r : UsageRecord)
    (hr : r ∈ parseCSV lines) :
    r.Service ∈ SERVICE_KEYWORDS ∧
      (r.Region = [] ∨ r.Region ∈ REGION_KEYWORDS) :=
  ⟨(parseCSV_mem hr).1, (parseCSV_mem hr).2.1⟩

/-- C10 witness: applied to the record emitted from a concrete input with a
service and a region header. -/
theorem c10_fields_from_vocabulary_witness :
    (⟨chars "Glue", chars "Global", chars "z", [], [], 5, chars "USD"⟩ :
        UsageRecord).Service ∈ SERVICE_KEYWORDS ∧
      ((⟨chars "Glue", chars "Global", chars "z", [], [], 5, chars "USD"⟩ :
        UsageRecord).Region = [] ∨
       (⟨chars "Glue", chars "Global", chars "z", [], [], 5, chars "USD"⟩ :
        UsageRecord).Region ∈ REGION_KEYWORDS) :=
  c10_fields_from_vocabulary
    [chars "Glue USD 4.00", chars "Global", chars "z USD 5.00"] _ (by decide)

end Billing
